import Mathlib

/-!
# Verification of `torch/distributed/debug.py`

A shallow embedding of the distributed debug-server module: workers publish
their debug endpoint address into a shared TCPStore under the `"debug_server"`
namespace, and the coordinator's `fetch_all` resolves all addresses and fans
out one HTTP POST per rank through a thread pool of at most 10 workers.

Modelling conventions:
* byte strings (store values, response bodies) are modelled as `String`
  (`bytes.decode()` is then the identity);
* the TCPStore is a partial map `String → Option String`; `multi_get`, which
  blocks until every key exists, returns `none` when some key is absent
  (an execution that would block forever);
* `requests.post` is an uninterpreted function `String → Except String Resp`:
  `Except.error e` models a raised transport exception (timeout, connection
  refused, DNS failure) stored in that request's future, `Except.ok` a
  received HTTP response of any status;
* `ThreadPoolExecutor(max_workers=10)` is given an operational small-step
  semantics (`PoolStep`): a task starts only when fewer than `max_workers`
  tasks are in flight, and tasks finish in an arbitrary (adversarial) order,
  each depositing its result at its own index;
* Python's `int(...)` conversion is modelled by `pyInt` (an optional sign
  followed by one or more decimal digits; anything else raises `ValueError`);
* module-level side effects and `enable_debug_server` are modelled as event
  traces (`Event`), reflecting that the module body runs at import time,
  before any function of the module can be called.
-/

namespace TorchDebug

/-- An HTTP response as produced by `requests.post`: status code and body. -/
structure Resp where
  status : Nat
  body : String
deriving DecidableEq

/-- The underlying TCPStore: a partial map from keys to (byte-)string values. -/
def Store : Type := String → Option String

/-- `store.set(k, v)`. -/
def Store.set (s : Store) (k v : String) : Store :=
  fun q => if q = k then some v else s q

/-- `store.get(k)` / membership test used by `multi_get`. -/
def Store.get (s : Store) (k : String) : Option String := s k

/-- c10d `PrefixStore` joins its namespace and the user key with `"/"`. -/
def scopeKey (scope k : String) : String := scope ++ "/" ++ k

/-- The fixed namespace used by `_tcpstore_client`. -/
def debugScope : String := "debug_server"

/-- `dist.PrefixStore(scope, base)`: a namespaced view of a base store. -/
structure ScopedStore where
  scope : String
  base : Store

/-- `_tcpstore_client()`: connect to the TCPStore at `MASTER_ADDR:MASTER_PORT`
and wrap it in `PrefixStore("debug_server", store)`. -/
def tcpstoreClient (base : Store) : ScopedStore :=
  ⟨debugScope, base⟩

/-- Writing through the namespaced view rewrites the key with the scope. -/
def ScopedStore.set (s : ScopedStore) (k v : String) : ScopedStore :=
  ⟨s.scope, s.base.set (scopeKey s.scope k) v⟩

/-- Reading through the namespaced view rewrites the key with the scope. -/
def ScopedStore.get (s : ScopedStore) (k : String) : Option String :=
  s.base.get (scopeKey s.scope k)

/-- `store.multi_get(keys)`: blocks until every key exists, then returns the
values in the order of the requested keys; `none` models the execution that
blocks forever because some key is never published. -/
def ScopedStore.multiGet (s : ScopedStore) : List String → Option (List String)
  | [] => some []
  | k :: ks =>
    match s.get k with
    | none => none
    | some v =>
      match s.multiGet ks with
      | none => none
      | some vs => some (v :: vs)

/-- The rendezvous key a rank publishes under: `f"rank{r}"`. -/
def rankKey (r : Nat) : String := "rank" ++ toString r

/-- `[f"rank{r}" for r in range(WORLD_SIZE)]`. -/
def fetchKeys (worldSize : Nat) : List String :=
  (List.range worldSize).map rankKey

/-- `f"{addr.decode()}/handler/{endpoint}"`. -/
def handlerUrl (addr endpoint : String) : String :=
  addr ++ "/handler/" ++ endpoint

/-- The transport: `requests.post` on a url either returns a response or
raises a transport exception (captured by the future running it). -/
def Post : Type := String → Except String Resp

/-- `ThreadPoolExecutor(max_workers=10)` in `fetch_all`. -/
def maxWorkers : Nat := 10

/-- `fetch_all(endpoint)`: resolve all ranks' addresses through the namespaced
store, build one url per rank, dispatch every `requests.post` through the
thread pool, and return the tuple `(addrs, resps)`.  The `with` block shuts
the pool down waiting for all futures, so by return time the `i`-th future
holds `post` of the `i`-th url; `resps` is the list of those stored outcomes
in submission (rank) order. -/
def fetch_all (worldSize : Nat) (base : Store) (post : Post) (endpoint : String) :
    Option (List String × List (Except String Resp)) :=
  match (tcpstoreClient base).multiGet (fetchKeys worldSize) with
  | none => none
  | some raw =>
    let addrs := raw.map (fun a => handlerUrl a endpoint)
    some (addrs, addrs.map post)

/-- Iterating the `executor.map` generator, as every caller of `fetch_all`
does: results are yielded in submission order, and the stored exception of
the first failed future encountered is re-raised (`Future.result`). -/
def consumeResps : List (Except String Resp) → Except String (List Resp)
  | [] => Except.ok []
  | Except.ok r :: rest => (consumeResps rest).map (fun l => r :: l)
  | Except.error e :: _ => Except.error e

/-! ## Startup configuration (module lines 37-40)

The module body reads `MASTER_ADDR`, `MASTER_PORT`, `RANK`, `WORLD_SIZE`
from the environment at import time; `os.environ[k]` raises `KeyError` when
`k` is absent and `int(s)` raises `ValueError` when `s` is not an integer. -/

/-- The process environment, `os.environ`. -/
def Env : Type := String → Option String

/-- Decimal accumulation over a digit list; fails at the first non-digit. -/
def parseNatAux : Nat → List Char → Option Nat
  | acc, [] => some acc
  | acc, c :: cs =>
    if c.isDigit then parseNatAux (acc * 10 + (c.toNat - 48)) cs else none

/-- One or more decimal digits. -/
def parseNat : List Char → Option Nat
  | [] => none
  | cs => parseNatAux 0 cs

/-- Python's `int(s)`: an optional sign followed by decimal digits; `none`
models the `ValueError` raised on any other input. -/
def pyInt (s : String) : Option Int :=
  match s.toList with
  | '-' :: cs => (parseNat cs).map (fun n => -(n : Int))
  | '+' :: cs => (parseNat cs).map (fun n => (n : Int))
  | cs => (parseNat cs).map (fun n => (n : Int))

/-- The validated startup configuration held in the module globals. -/
structure Config where
  masterAddr : String
  masterPort : Int
  rank : Int
  worldSize : Int
deriving DecidableEq

/-- The module-level reads
`MASTER_ADDR = os.environ["MASTER_ADDR"]`,
`MASTER_PORT = int(os.environ["MASTER_PORT"])`,
`RANK = int(os.environ["RANK"])`,
`WORLD_SIZE = int(os.environ["WORLD_SIZE"])`,
executed in that order at import; the first missing key or failed integer
conversion raises, aborting the import. -/
def loadConfig (env : Env) : Except String Config :=
  match env "MASTER_ADDR" with
  | none => Except.error "KeyError: MASTER_ADDR"
  | some a =>
    match env "MASTER_PORT" with
    | none => Except.error "KeyError: MASTER_PORT"
    | some p =>
      match pyInt p with
      | none => Except.error "ValueError: MASTER_PORT"
      | some pi =>
        match env "RANK" with
        | none => Except.error "KeyError: RANK"
        | some r =>
          match pyInt r with
          | none => Except.error "ValueError: RANK"
          | some ri =>
            match env "WORLD_SIZE" with
            | none => Except.error "KeyError: WORLD_SIZE"
            | some w =>
              match pyInt w with
              | none => Except.error "ValueError: WORLD_SIZE"
              | some wi => Except.ok ⟨a, pi, ri, wi⟩

/-! ## Event traces: module import and `enable_debug_server` -/

/-- Observable effects of the module, in program order. -/
inductive Event where
  /-- `_register_handler(name, fn)` (module line 35). -/
  | registerHandler (name : String)
  /-- `_WorkerServer("::", 0)`: bind to an ephemeral port and start
  accepting connections; `port` is the port the bind assigned. -/
  | bind (port : Nat)
  /-- a write of `value` to underlying-store key `key`. -/
  | publish (key value : String)
  /-- spawning the rank-0 interactive Flask server process. -/
  | startInteractive
deriving DecidableEq

/-- The address string a worker publishes:
`f"http://{socket.gethostname()}:{_worker_server.port}"`. -/
def workerAddr (host : String) (port : Nat) : String :=
  "http://" ++ host ++ ":" ++ toString port

/-- The effect trace of `enable_debug_server()` for a process of rank `rank`
on host `host` whose `_WorkerServer("::", 0)` bind yields `boundPort`:
construct the server (bind), publish the address under the namespaced rank
key, and on rank 0 also start the interactive server. -/
def enableDebugServerTrace (rank : Nat) (host : String) (boundPort : Nat) : List Event :=
  [Event.bind boundPort,
   Event.publish (scopeKey debugScope (rankKey rank)) (workerAddr host boundPort)]
  ++ (if rank = 0 then [Event.startInteractive] else [])

/-- The effect of `enable_debug_server()`'s `store.set` on the underlying
TCPStore contents. -/
def enableDebugServerStore (rank : Nat) (host : String) (boundPort : Nat)
    (base : Store) : Store :=
  ((tcpstoreClient base).set (rankKey rank) (workerAddr host boundPort)).base

/-- The module body's effect trace: the single `_register_handler` call at
line 35, executed at import time. -/
def moduleInitTrace : List Event :=
  [Event.registerHandler "torch_profile"]

/-- The effect trace of a process that imports the module and then calls
`enable_debug_server()`: Python runs the module body on import, before any
function of the module can be invoked. -/
def programTrace (rank : Nat) (host : String) (boundPort : Nat) : List Event :=
  moduleInitTrace ++ enableDebugServerTrace rank host boundPort

/-- The handler registry accumulated by a trace: the names passed to
`_register_handler`, in order. -/
def registryOf (t : List Event) : List String :=
  t.filterMap (fun e =>
    match e with
    | Event.registerHandler n => some n
    | _ => none)

/-! ## Operational model of `ThreadPoolExecutor(max_workers=10)`

`executor.map(requests.post, addrs)` submits one task per url; at most
`max_workers` tasks execute simultaneously, and tasks complete in an
arbitrary order, each storing its outcome in its own future.  `tasks` below
is the list of task outcomes in submission order (`i`-th entry: what running
task `i` produces); the schedule chooses interleavings. -/

/-- State of the pool: how many tasks have started so far (tasks start in
submission order as threads free up), which task indices are currently in
flight, and the `(index, outcome)` pairs completed so far, most recent
first — completion order is arbitrary. -/
structure PoolState (β : Type) where
  started : Nat
  inFlight : List Nat
  results : List (Nat × β)
deriving DecidableEq

/-- The empty pool, before any task starts. -/
def poolInit {β : Type} : PoolState β := ⟨0, [], []⟩

/-- One scheduler step of the pool running `tasks` with concurrency bound
`maxW`: either the next submitted task starts executing (only if a worker
thread is free), or some in-flight task finishes and deposits its outcome. -/
inductive PoolStep (maxW : Nat) {β : Type} (tasks : List β) :
    PoolState β → PoolState β → Prop where
  | dispatch (s : PoolState β) :
      s.inFlight.length < maxW →
      s.started < tasks.length →
      PoolStep maxW tasks s ⟨s.started + 1, s.started :: s.inFlight, s.results⟩
  | complete (s : PoolState β) (i : Nat) (v : β) :
      i ∈ s.inFlight →
      tasks.get? i = some v →
      PoolStep maxW tasks s ⟨s.started, s.inFlight.erase i, (i, v) :: s.results⟩

/-- Pool states reachable from the empty pool. -/
def PoolReach (maxW : Nat) {β : Type} (tasks : List β) (s : PoolState β) : Prop :=
  Relation.ReflTransGen (PoolStep maxW tasks) poolInit s

/-- A finished run: every task has started and none is still in flight
(`executor.__exit__` has joined all futures). -/
def PoolDone {β : Type} (tasks : List β) (s : PoolState β) : Prop :=
  s.started = tasks.length ∧ s.inFlight = []

/-- The outcome recorded for task `i` in a completion log. -/
def resAt {β : Type} (rs : List (Nat × β)) (i : Nat) : Option β :=
  (rs.find? (fun p => p.1 == i)).map Prod.snd

/-! ## Concrete sample inputs for evaluation -/

/-- A base TCPStore where only rank 0 has published its address. -/
def wBase : Store := fun k =>
  if k = "debug_server/rank0" then some "http://h:1" else none

/-- A transport that always succeeds with status 200. -/
def wPost : Post := fun _ => Except.ok ⟨200, "ok"⟩

/-- The pair returned by `fetch_all 1 wBase wPost "torch_profile"`. -/
def wPr : List String × List (Except String Resp) :=
  (["http://h:1/handler/torch_profile"], [Except.ok ⟨200, "ok"⟩])

/-- A finished pool state for the single task of `wPr`. -/
def wFinal : PoolState (Except String Resp) :=
  ⟨1, [], [(0, Except.ok ⟨200, "ok"⟩)]⟩

/-- A base TCPStore where ranks 0 and 1 have published their addresses. -/
def cexBase : Store := fun k =>
  if k = "debug_server/rank0" then some "http://a:1"
  else if k = "debug_server/rank1" then some "http://b:2"
  else none

/-- A transport where rank 0's url fails with a connection error and every
other url succeeds with status 200. -/
def cexPost : Post := fun u =>
  if u = "http://a:1/handler/dump_traceback" then Except.error "ConnectionError"
  else Except.ok ⟨200, "ok"⟩

/-- The outcome list produced by fanning `cexPost` out over both ranks. -/
def cexResps : List (Except String Resp) :=
  [Except.error "ConnectionError", Except.ok ⟨200, "ok"⟩]

/-- A sample environment with all four variables present and integral. -/
def wEnv : Env := fun k =>
  if k = "MASTER_ADDR" then some "master.local"
  else if k = "MASTER_PORT" then some "29500"
  else if k = "RANK" then some "0"
  else if k = "WORLD_SIZE" then some "2"
  else none

/-! ## Store and resolution lemmas -/

theorem multiGet_length {s : ScopedStore} : ∀ {ks : List String} {vs : List String},
    s.multiGet ks = some vs → vs.length = ks.length := by
  intro ks
  induction ks with
  | nil =>
    intro vs h
    simp only [ScopedStore.multiGet] at h
    cases h
    rfl
  | cons k ks ih =>
    intro vs h
    simp only [ScopedStore.multiGet] at h
    cases hg : s.get k with
    | none => rw [hg] at h; cases h
    | some v =>
      rw [hg] at h
      cases hm : s.multiGet ks with
      | none => rw [hm] at h; cases h
      | some ws =>
        rw [hm] at h
        cases h
        simp [ih hm]

theorem multiGet_get? {s : ScopedStore} : ∀ {ks vs : List String},
    s.multiGet ks = some vs → ∀ i : Nat, vs.get? i = (ks.get? i).bind s.get := by
  intro ks
  induction ks with
  | nil =>
    intro vs h i
    simp only [ScopedStore.multiGet] at h
    cases h
    simp
  | cons k ks ih =>
    intro vs h i
    simp only [ScopedStore.multiGet] at h
    cases hg : s.get k with
    | none => rw [hg] at h; cases h
    | some v =>
      rw [hg] at h
      cases hm : s.multiGet ks with
      | none => rw [hm] at h; cases h
      | some ws =>
        rw [hm] at h
        cases h
        cases i with
        | zero => simp [hg]
        | succ j => simpa using ih hm j

theorem fetchKeys_get? {worldSize r : Nat} (hr : r < worldSize) :
    (fetchKeys worldSize).get? r = some (rankKey r) := by
  simp only [fetchKeys, List.get?_eq_getElem?, List.getElem?_map]
  rw [List.getElem?_range hr]
  rfl

theorem fetchKeys_length (worldSize : Nat) :
    (fetchKeys worldSize).length = worldSize := by
  simp [fetchKeys]

theorem store_set_get_same (base : Store) (k v : String) :
    (base.set k v).get k = some v := by
  simp [Store.set, Store.get]

theorem scoped_get_spec (base : Store) (k : String) :
    (tcpstoreClient base).get k = base.get (scopeKey debugScope k) := rfl

/-! ## `fetch_all` unfolding lemmas -/

theorem fetch_all_eq_some {worldSize : Nat} {base : Store} {post : Post}
    {endpoint : String} {raw : List String}
    (h : (tcpstoreClient base).multiGet (fetchKeys worldSize) = some raw) :
    fetch_all worldSize base post endpoint =
      some (raw.map (fun a => handlerUrl a endpoint),
            (raw.map (fun a => handlerUrl a endpoint)).map post) := by
  simp [fetch_all, h]

theorem fetch_all_inv {worldSize : Nat} {base : Store} {post : Post}
    {endpoint : String} {pr : List String × List (Except String Resp)}
    (h : fetch_all worldSize base post endpoint = some pr) :
    ∃ raw, (tcpstoreClient base).multiGet (fetchKeys worldSize) = some raw ∧
      pr.1 = raw.map (fun a => handlerUrl a endpoint) ∧
      pr.2 = pr.1.map post := by
  unfold fetch_all at h
  cases hm : (tcpstoreClient base).multiGet (fetchKeys worldSize) with
  | none => rw [hm] at h; cases h
  | some raw =>
    rw [hm] at h
    cases h
    exact ⟨raw, rfl, rfl, rfl⟩

/-! ## Pool invariant and adequacy -/

theorem resAt_eq_none_iff {β : Type} {rs : List (Nat × β)} {i : Nat} :
    resAt rs i = none ↔ ∀ p ∈ rs, p.1 ≠ i := by
  simp only [resAt, Option.map_eq_none', List.find?_eq_none, beq_iff_eq]

theorem resAt_eq_some_mem {β : Type} {rs : List (Nat × β)} {i : Nat} {v : β}
    (h : resAt rs i = some v) : (i, v) ∈ rs := by
  simp only [resAt, Option.map_eq_some'] at h
  obtain ⟨p, hp, hv⟩ := h
  have hpred := List.find?_some hp
  have hmem := List.mem_of_find?_eq_some hp
  simp only [beq_iff_eq] at hpred
  cases p with
  | mk a b =>
    cases hpred
    cases hv
    exact hmem

theorem resAt_cons_self {β : Type} (rs : List (Nat × β)) (i : Nat) (v : β) :
    resAt ((i, v) :: rs) i = some v := by
  simp [resAt, List.find?]

theorem resAt_cons_ne {β : Type} (rs : List (Nat × β)) {i j : Nat} (v : β)
    (h : i ≠ j) : resAt ((i, v) :: rs) j = resAt rs j := by
  simp only [resAt, List.find?]
  rw [show ((i, v).1 == j) = false from beq_false_of_ne h]

/-- The inductive invariant of the thread pool: at most `maxW` tasks in
flight, every in-flight index already started and not yet completed, every
completion log entry holds the outcome of running its own task, and every
started task is either in flight or completed. -/
structure PoolInv (maxW : Nat) {β : Type} (tasks : List β) (s : PoolState β) : Prop where
  started_le : s.started ≤ tasks.length
  bound : s.inFlight.length ≤ maxW
  nodup : s.inFlight.Nodup
  flight_lt : ∀ i ∈ s.inFlight, i < s.started
  res_lt : ∀ p ∈ s.results, p.1 < s.started
  res_val : ∀ p ∈ s.results, tasks.get? p.1 = some p.2
  flight_not_res : ∀ i ∈ s.inFlight, resAt s.results i = none
  covered : ∀ i, i < s.started → i ∈ s.inFlight ∨ (resAt s.results i).isSome

theorem poolInv_init (maxW : Nat) {β : Type} (tasks : List β) :
    PoolInv maxW tasks (poolInit (β := β)) := by
  constructor <;> simp [poolInit]

theorem poolInv_step {maxW : Nat} {β : Type} {tasks : List β}
    {s s' : PoolState β} (hinv : PoolInv maxW tasks s)
    (hstep : PoolStep maxW tasks s s') : PoolInv maxW tasks s' := by
  cases hstep with
  | dispatch hlt hstarted =>
    have hfresh : s.started ∉ s.inFlight := fun hmem =>
      absurd (hinv.flight_lt _ hmem) (Nat.lt_irrefl _)
    constructor
    · exact hstarted
    · simpa using hlt
    · exact List.Nodup.cons hfresh hinv.nodup
    · intro i hi
      cases List.mem_cons.mp hi with
      | inl h => cases h; exact Nat.lt_succ_self _
      | inr h => exact Nat.lt_succ_of_lt (hinv.flight_lt i h)
    · intro p hp
      exact Nat.lt_succ_of_lt (hinv.res_lt p hp)
    · exact hinv.res_val
    · intro i hi
      cases List.mem_cons.mp hi with
      | inl h =>
        cases h
        refine resAt_eq_none_iff.mpr (fun p hp hpi => ?_)
        exact absurd (hpi ▸ hinv.res_lt p hp) (Nat.lt_irrefl _)
      | inr h => exact hinv.flight_not_res i h
    · intro i hi
      cases Nat.lt_succ_iff_lt_or_eq.mp hi with
      | inl h =>
        cases hinv.covered i h with
        | inl hmem => exact Or.inl (List.mem_cons_of_mem _ hmem)
        | inr hres => exact Or.inr hres
      | inr h => exact Or.inl (h ▸ List.mem_cons_self _ _)
  | complete i v hmem hval =>
    constructor
    · exact hinv.started_le
    · calc (s.inFlight.erase i).length ≤ s.inFlight.length := List.length_erase_le _ _
        _ ≤ maxW := hinv.bound
    · exact hinv.nodup.erase i
    · intro j hj
      exact hinv.flight_lt j (List.mem_of_mem_erase hj)
    · intro p hp
      cases List.mem_cons.mp hp with
      | inl h => cases h; exact hinv.flight_lt i hmem
      | inr h => exact hinv.res_lt p h
    · intro p hp
      cases List.mem_cons.mp hp with
      | inl h => cases h; exact hval
      | inr h => exact hinv.res_val p h
    · intro j hj
      have hj' := (List.Nodup.mem_erase_iff hinv.nodup).mp hj
      rw [resAt_cons_ne _ _ (fun h => hj'.1 h.symm)]
      exact hinv.flight_not_res j hj'.2
    · intro j hj
      cases hinv.covered j hj with
      | inl hmem' =>
        by_cases hij : j = i
        · cases hij
          rw [resAt_cons_self]
          exact Or.inr rfl
        · exact Or.inl ((List.Nodup.mem_erase_iff hinv.nodup).mpr ⟨hij, hmem'⟩)
      | inr hres =>
        by_cases hij : j = i
        · cases hij
          rw [resAt_cons_self]
          exact Or.inr rfl
        · rw [resAt_cons_ne _ _ (fun h => hij h.symm)]
          exact Or.inr hres

theorem poolInv_reach {maxW : Nat} {β : Type} {tasks : List β}
    {s : PoolState β} (h : PoolReach maxW tasks s) : PoolInv maxW tasks s := by
  induction h with
  | refl => exact poolInv_init maxW tasks
  | tail _ hstep ih => exact poolInv_step ih hstep

/-- Adequacy of the pool: a finished run has recorded, for every index, the
outcome of its own task — whatever order completions happened in. -/
theorem poolDone_resAt {maxW : Nat} {β : Type} {tasks : List β}
    {s : PoolState β} (hreach : PoolReach maxW tasks s)
    (hdone : PoolDone tasks s) (i : Nat) :
    resAt s.results i = tasks.get? i := by
  have hinv := poolInv_reach hreach
  by_cases hi : i < tasks.length
  · have hcov := hinv.covered i (hdone.1 ▸ hi)
    rw [hdone.2] at hcov
    cases hcov with
    | inl h => cases h
    | inr h =>
      cases hres : resAt s.results i with
      | none => rw [hres] at h; cases h
      | some v =>
        have hmem := resAt_eq_some_mem hres
        exact (hinv.res_val _ hmem).symm
  · rw [List.get?_eq_none.mpr (Nat.le_of_not_lt hi)]
    cases hres : resAt s.results i with
    | none => rfl
    | some v =>
      have hmem := resAt_eq_some_mem hres
      have := hinv.res_lt _ hmem
      rw [hdone.1] at this
      exact absurd hi (fun _ => hi (Nat.lt_of_lt_of_le this (Nat.le_refl _)))

/-- The concurrency bound is an invariant of every reachable pool state. -/
theorem poolReach_bound {maxW : Nat} {β : Type} {tasks : List β}
    {s : PoolState β} (h : PoolReach maxW tasks s) :
    s.inFlight.length ≤ maxW :=
  (poolInv_reach h).bound

/-! ## `consumeResps` lemmas -/

theorem consumeResps_first_error :
    ∀ {rs : List (Except String Resp)} {i : Nat} {e : String},
    rs.get? i = some (Except.error e) →
    (∀ j, j < i → ∃ r, rs.get? j = some (Except.ok r)) →
    consumeResps rs = Except.error e := by
  intro rs
  induction rs with
  | nil => intro i e h _; simp at h
  | cons x rest ih =>
    intro i e h hok
    cases i with
    | zero =>
      simp only [List.get?] at h
      cases h
      rfl
    | succ k =>
      obtain ⟨r, hr⟩ := hok 0 (Nat.succ_pos k)
      simp only [List.get?] at hr h
      cases hr
      have : consumeResps rest = Except.error e :=
        ih h (fun j hj => hok (j + 1) (Nat.succ_lt_succ hj))
      simp [consumeResps, this, Except.map]

/-! ## Remaining helper lemmas -/

theorem map_get? {α β : Type} (f : α → β) (l : List α) (i : Nat) :
    (l.map f).get? i = (l.get? i).map f := by
  simp [List.get?_eq_getElem?, List.getElem?_map]

theorem scopeKey_debug (k : String) : scopeKey debugScope k = "debug_server/" ++ k := by
  show debugScope ++ "/" ++ k = "debug_server/" ++ k
  rw [show ("debug_server/" : String) = debugScope ++ "/" from by decide,
    String.append_assoc]

theorem registryOf_append (a b : List Event) :
    registryOf (a ++ b) = registryOf a ++ registryOf b := by
  simp [registryOf]

theorem registryOf_server (rank : Nat) (host : String) (boundPort : Nat) :
    registryOf (enableDebugServerTrace rank host boundPort) = [] := by
  by_cases hr : rank = 0 <;> simp [enableDebugServerTrace, registryOf, hr]

theorem wReach_mid : PoolStep maxWorkers wPr.2 poolInit
    (⟨1, [0], []⟩ : PoolState (Except String Resp)) :=
  PoolStep.dispatch poolInit (by decide) (by decide)

theorem wReach_last : PoolStep maxWorkers wPr.2
    (⟨1, [0], []⟩ : PoolState (Except String Resp)) wFinal :=
  @PoolStep.complete maxWorkers (Except String Resp) wPr.2 ⟨1, [0], []⟩ 0
    (Except.ok ⟨200, "ok"⟩) (by decide) rfl

theorem wReach_final : PoolReach maxWorkers wPr.2 wFinal :=
  Relation.ReflTransGen.tail (Relation.ReflTransGen.single wReach_mid) wReach_last

theorem loadConfig_ok (env : Env) (c : Config) :
    loadConfig env = Except.ok c ↔
      (env "MASTER_ADDR" = some c.masterAddr ∧
       (env "MASTER_PORT").bind pyInt = some c.masterPort ∧
       (env "RANK").bind pyInt = some c.rank ∧
       (env "WORLD_SIZE").bind pyInt = some c.worldSize) := by
  obtain ⟨ca, cp, cr, cw⟩ := c
  cases ha : env "MASTER_ADDR" with
  | none => simp [loadConfig, ha]
  | some a =>
    cases hp : env "MASTER_PORT" with
    | none => simp [loadConfig, ha, hp]
    | some p =>
      cases hpi : pyInt p with
      | none => simp [loadConfig, ha, hp, hpi]
      | some pi =>
        cases hr : env "RANK" with
        | none => simp [loadConfig, ha, hp, hpi, hr]
        | some r =>
          cases hri : pyInt r with
          | none => simp [loadConfig, ha, hp, hpi, hr, hri]
          | some ri =>
            cases hw : env "WORLD_SIZE" with
            | none => simp [loadConfig, ha, hp, hpi, hr, hri, hw]
            | some w =>
              cases hwi : pyInt w with
              | none => simp [loadConfig, ha, hp, hpi, hr, hri, hw, hwi]
              | some wi =>
                simp [loadConfig, ha, hp, hpi, hr, hri, hw, hwi,
                  Config.mk.injEq, eq_comm]

/-! ## The claims -/

/-- C1: for every world size `N ≥ 1` and endpoint, a `fetch_all` whose
resolution succeeds returns exactly `N` result entries — the `i`-th entry is
always rank `i`'s outcome, namely `post` of the `i`-th target url — and any
finished schedule of the thread pool, whatever order the responses arrived
in, has recorded exactly those outcomes at those indices. -/
theorem fetch_all_rank_order (N : Nat) (hN : 1 ≤ N) (base : Store) (post : Post)
    (endpoint : String) (pr : List String × List (Except String Resp))
    (h : fetch_all N base post endpoint = some pr)
    (s : PoolState (Except String Resp))
    (hreach : PoolReach maxWorkers pr.2 s) (hdone : PoolDone pr.2 s) :
    pr.2.length = N ∧
    (∀ i, pr.2.get? i = (pr.1.get? i).map post) ∧
    (∀ i, resAt s.results i = pr.2.get? i) := by
  obtain ⟨raw, hraw, h1, h2⟩ := fetch_all_inv h
  have hlen : raw.length = N := by
    simpa [fetchKeys_length] using multiGet_length hraw
  refine ⟨?_, ?_, ?_⟩
  · rw [h2, h1]; simp [hlen]
  · intro i; rw [h2, map_get?]
  · intro i; exact poolDone_resAt hreach hdone i

/-- C1 witness: world size 1 with the concrete store `wBase`, transport
`wPost` and the finished schedule `wFinal`. -/
theorem fetch_all_rank_order_witness :
    wPr.2.length = 1 ∧
    (∀ i, wPr.2.get? i = (wPr.1.get? i).map wPost) ∧
    (∀ i, resAt wFinal.results i = wPr.2.get? i) :=
  fetch_all_rank_order 1 (by decide) wBase wPost "torch_profile" wPr rfl wFinal
    wReach_final ⟨rfl, rfl⟩

/-- C2 counterexample: at world size 2, with rank 0's request failing at
transport level (`cexPost`), the futures do hold an exception for rank 0 and
rank 1's real response — but iterating the returned `resps`, as every caller
of `fetch_all` does, re-raises the stored exception past the fan-out
boundary instead of yielding a `Failure` entry, and rank 1's outcome is
never yielded: there is no per-rank `Failure` entry in what the caller
receives, refuting "never thrown past the fan-out boundary" and "never
omits them from the returned result". -/
theorem fetch_all_failure_escapes :
    fetch_all 2 cexBase cexPost "dump_traceback" =
      some (["http://a:1/handler/dump_traceback", "http://b:2/handler/dump_traceback"],
            cexResps) ∧
    cexResps.get? 0 = some (Except.error "ConnectionError") ∧
    cexResps.get? 1 = some (Except.ok ⟨200, "ok"⟩) ∧
    consumeResps cexResps = Except.error "ConnectionError" :=
  ⟨rfl, rfl, rfl, rfl⟩

/-- C2 amended: each rank's outcome is collected independently into its own
future — the `i`-th stored outcome is exactly `post` of the `i`-th url, all
`N` futures are present, and `fetch_all` itself returns normally even when
some requests fail — but a transport failure is not wrapped as data: when
the caller iterates the returned `resps`, the first stored exception is
re-raised and the outcomes of later ranks are never yielded. -/
theorem fetch_all_outcomes_independent (N : Nat) (base : Store) (post : Post)
    (endpoint : String) (pr : List String × List (Except String Resp))
    (h : fetch_all N base post endpoint = some pr) :
    pr.2.length = N ∧
    (∀ i, pr.2.get? i = (pr.1.get? i).map post) ∧
    (∀ i e, pr.2.get? i = some (Except.error e) →
      (∀ j, j < i → ∃ r, pr.2.get? j = some (Except.ok r)) →
      consumeResps pr.2 = Except.error e) := by
  obtain ⟨raw, hraw, h1, h2⟩ := fetch_all_inv h
  have hlen : raw.length = N := by
    simpa [fetchKeys_length] using multiGet_length hraw
  refine ⟨?_, ?_, ?_⟩
  · rw [h2, h1]; simp [hlen]
  · intro i; rw [h2, map_get?]
  · intro i e he hok
    exact consumeResps_first_error he hok

/-- C2 amended witness: the concrete world-size-2 fan-out of `cexPost`. -/
theorem fetch_all_outcomes_independent_witness :
    cexResps.length = 2 ∧
    (∀ i, cexResps.get? i =
      ((["http://a:1/handler/dump_traceback",
         "http://b:2/handler/dump_traceback"] : List String).get? i).map cexPost) ∧
    (∀ i e, cexResps.get? i = some (Except.error e) →
      (∀ j, j < i → ∃ r, cexResps.get? j = some (Except.ok r)) →
      consumeResps cexResps = Except.error e) :=
  fetch_all_outcomes_independent 2 cexBase cexPost "dump_traceback"
    (["http://a:1/handler/dump_traceback", "http://b:2/handler/dump_traceback"],
     cexResps) rfl

/-- C3: the fan-out's pool bound is the constant `10` (`max_workers=10`),
independent of the world size `N`: in every reachable state of the pool
running the requests of any `fetch_all`, at most 10 are simultaneously in
flight. -/
theorem fetch_all_concurrency_bound (N : Nat) (base : Store) (post : Post)
    (endpoint : String) (pr : List String × List (Except String Resp))
    (h : fetch_all N base post endpoint = some pr)
    (s : PoolState (Except String Resp))
    (hreach : PoolReach maxWorkers pr.2 s) :
    maxWorkers = 10 ∧ s.inFlight.length ≤ 10 :=
  ⟨rfl, poolReach_bound hreach⟩

/-- C3 witness: the concrete schedule `wFinal` of the world-size-1 fan-out. -/
theorem fetch_all_concurrency_bound_witness :
    maxWorkers = 10 ∧ wFinal.inFlight.length ≤ 10 :=
  fetch_all_concurrency_bound 1 wBase wPost "torch_profile" wPr rfl wFinal
    wReach_final

/-- C4: round-trip through the rendezvous store: publishing address `A`
under rank `r`'s key through the namespaced client (as `enable_debug_server`
does with `store.set`) and then resolving all ranks with `multi_get` (as
`fetch_all` does) yields exactly `A` at position `r`. -/
theorem store_roundtrip (base : Store) (N r : Nat) (A : String) (hr : r < N)
    (vs : List String)
    (h : ((tcpstoreClient base).set (rankKey r) A).multiGet (fetchKeys N) = some vs) :
    vs.get? r = some A := by
  have hg := multiGet_get? h r
  rw [fetchKeys_get? hr] at hg
  simpa [ScopedStore.get, ScopedStore.set, tcpstoreClient, Store.set, Store.get]
    using hg

/-- C4 witness: rank 0 of world size 1 publishing `"http://x:9"` into an
empty store. -/
theorem store_roundtrip_witness :
    (["http://x:9"] : List String).get? 0 = some "http://x:9" :=
  store_roundtrip (fun _ => none) 1 0 "http://x:9" (by decide) ["http://x:9"] rfl

/-- C5: `fetch_all` builds exactly one fully-qualified target url per rank:
the `i`-th url is the `i`-th resolved address with `"/handler/"` and the
endpoint (handler name plus optional query suffix) appended. -/
theorem fetch_all_url_construction (N : Nat) (base : Store) (post : Post)
    (endpoint : String) (pr : List String × List (Except String Resp))
    (h : fetch_all N base post endpoint = some pr)
    (raw : List String)
    (hraw : (tcpstoreClient base).multiGet (fetchKeys N) = some raw) :
    pr.1.length = N ∧
    ∀ i, pr.1.get? i = (raw.get? i).map (fun a => handlerUrl a endpoint) := by
  obtain ⟨raw', hraw', h1, h2⟩ := fetch_all_inv h
  rw [hraw'] at hraw
  cases hraw
  have hlen : raw.length = N := by
    simpa [fetchKeys_length] using multiGet_length hraw'
  constructor
  · rw [h1]; simp [hlen]
  · intro i; rw [h1, map_get?]

/-- C5 witness: the world-size-1 fan-out over `wBase`. -/
theorem fetch_all_url_construction_witness :
    wPr.1.length = 1 ∧
    ∀ i, wPr.1.get? i =
      ((["http://h:1"] : List String).get? i).map
        (fun a => handlerUrl a "torch_profile") :=
  fetch_all_url_construction 1 wBase wPost "torch_profile" wPr rfl
    ["http://h:1"] rfl

/-- C6: every store key this subsystem touches is scoped under the fixed
namespace `"debug_server"`: the worker's publish writes exactly the
underlying key `"debug_server/rank<r>"` (leaving every other key of the
shared store untouched), and the coordinator's resolve reads exactly the
same underlying key, so both sides use the identical scoped key. -/
theorem debug_keys_namespaced (r : Nat) (base : Store) (host : String) (port : Nat) :
    scopeKey debugScope (rankKey r) = "debug_server/" ++ rankKey r ∧
    (∀ k, enableDebugServerStore r host port base k =
      if k = "debug_server/" ++ rankKey r then some (workerAddr host port)
      else base k) ∧
    (tcpstoreClient base).get (rankKey r) = base.get ("debug_server/" ++ rankKey r) := by
  refine ⟨scopeKey_debug _, ?_, ?_⟩
  · intro k
    simp only [enableDebugServerStore, ScopedStore.set, tcpstoreClient, Store.set,
      scopeKey_debug]
  · simp only [ScopedStore.get, tcpstoreClient, scopeKey_debug]

/-- C7: in the effect trace of `enable_debug_server`, every rendezvous
publish occurs strictly after the bind of the worker server succeeded, and
the published address embeds exactly the port the bind assigned (under the
namespaced rank key). -/
theorem publish_after_bind (rank : Nat) (host : String) (boundPort : Nat)
    (j : Nat) (k v : String)
    (h : (enableDebugServerTrace rank host boundPort).get? j = some (Event.publish k v)) :
    (∃ i, i < j ∧ (enableDebugServerTrace rank host boundPort).get? i
        = some (Event.bind boundPort)) ∧
    v = workerAddr host boundPort ∧
    k = scopeKey debugScope (rankKey rank) := by
  match j with
  | 0 => exact Event.noConfusion (Option.some.inj h)
  | 1 =>
    have h' : Event.publish (scopeKey debugScope (rankKey rank))
        (workerAddr host boundPort) = Event.publish k v := Option.some.inj h
    cases h'
    exact ⟨⟨0, Nat.zero_lt_one, rfl⟩, rfl, rfl⟩
  | j + 2 =>
    exfalso
    have h' : ((if rank = 0 then [Event.startInteractive] else []).get? j)
        = some (Event.publish k v) := h
    by_cases hr : rank = 0
    · rw [if_pos hr] at h'
      cases j with
      | zero => exact Event.noConfusion (Option.some.inj h')
      | succ m => exact Option.noConfusion h'
    · rw [if_neg hr] at h'
      exact Option.noConfusion h'

/-- C7 witness: rank 3 on host `"node7"`, bind assigning port 8080. -/
theorem publish_after_bind_witness :
    (∃ i, i < 1 ∧ (enableDebugServerTrace 3 "node7" 8080).get? i
        = some (Event.bind 8080)) ∧
    "http://node7:8080" = workerAddr "node7" 8080 ∧
    "debug_server/rank3" = scopeKey debugScope (rankKey 3) :=
  publish_after_bind 3 "node7" 8080 1 "debug_server/rank3" "http://node7:8080" rfl

/-- C8: in the full program trace (module import, then
`enable_debug_server`), every `_register_handler` call precedes every bind
of the worker server, and the registry after the whole run is exactly the
registry populated at module initialization, `["torch_profile"]` — it is
never mutated once the server has started. -/
theorem registry_before_accept (rank : Nat) (host : String) (boundPort : Nat) :
    (∀ i j n p, (programTrace rank host boundPort).get? i
        = some (Event.registerHandler n) →
      (programTrace rank host boundPort).get? j = some (Event.bind p) → i < j) ∧
    registryOf (programTrace rank host boundPort) = registryOf moduleInitTrace ∧
    registryOf moduleInitTrace = ["torch_profile"] := by
  refine ⟨?_, ?_, rfl⟩
  · intro i j n p hi hj
    have hi0 : i = 0 := by
      match i with
      | 0 => rfl
      | 1 => exact Event.noConfusion (Option.some.inj hi)
      | 2 => exact Event.noConfusion (Option.some.inj hi)
      | m + 3 =>
        exfalso
        have h' : ((if rank = 0 then [Event.startInteractive] else []).get? m)
            = some (Event.registerHandler n) := hi
        by_cases hr : rank = 0
        · rw [if_pos hr] at h'
          cases m with
          | zero => exact Event.noConfusion (Option.some.inj h')
          | succ m' => exact Option.noConfusion h'
        · rw [if_neg hr] at h'
          exact Option.noConfusion h'
    have hj1 : j = 1 := by
      match j with
      | 0 => exact Event.noConfusion (Option.some.inj hj)
      | 1 => rfl
      | 2 => exact Event.noConfusion (Option.some.inj hj)
      | m + 3 =>
        exfalso
        have h' : ((if rank = 0 then [Event.startInteractive] else []).get? m)
            = some (Event.bind p) := hj
        by_cases hr : rank = 0
        · rw [if_pos hr] at h'
          cases m with
          | zero => exact Event.noConfusion (Option.some.inj h')
          | succ m' => exact Option.noConfusion h'
        · rw [if_neg hr] at h'
          exact Option.noConfusion h'
    rw [hi0, hj1]
    exact Nat.zero_lt_one
  · show registryOf (moduleInitTrace ++ enableDebugServerTrace rank host boundPort) = _
    rw [registryOf_append, registryOf_server]
    simp

/-- C8 witness: rank 0 on host `"h"`, bound port 5. -/
theorem registry_before_accept_witness :
    (0 : Nat) < 1 ∧ registryOf (programTrace 0 "h" 5) = ["torch_profile"] := by
  have h := registry_before_accept 0 "h" 5
  exact ⟨h.1 0 1 "torch_profile" 5 rfl rfl, h.2.1.trans h.2.2⟩

/-- C9: the module-level configuration load succeeds exactly when all four
environment variables are present and parse as integers where required, and
on success the module globals hold exactly the supplied values; a missing
or malformed variable makes the import fail with an error, so no component
ever runs with a missing or unparsed value. -/
theorem loadConfig_validates (env : Env) :
    ((∃ c, loadConfig env = Except.ok c) ↔
      ((env "MASTER_ADDR").isSome ∧
       ((env "MASTER_PORT").bind pyInt).isSome ∧
       ((env "RANK").bind pyInt).isSome ∧
       ((env "WORLD_SIZE").bind pyInt).isSome)) ∧
    (∀ c, loadConfig env = Except.ok c →
      env "MASTER_ADDR" = some c.masterAddr ∧
      (env "MASTER_PORT").bind pyInt = some c.masterPort ∧
      (env "RANK").bind pyInt = some c.rank ∧
      (env "WORLD_SIZE").bind pyInt = some c.worldSize) := by
  constructor
  · constructor
    · rintro ⟨c, hc⟩
      obtain ⟨h1, h2, h3, h4⟩ := (loadConfig_ok env c).mp hc
      exact ⟨h1 ▸ rfl, h2 ▸ rfl, h3 ▸ rfl, h4 ▸ rfl⟩
    · rintro ⟨h1, h2, h3, h4⟩
      obtain ⟨a, ha⟩ := Option.isSome_iff_exists.mp h1
      obtain ⟨pi, hp⟩ := Option.isSome_iff_exists.mp h2
      obtain ⟨ri, hri⟩ := Option.isSome_iff_exists.mp h3
      obtain ⟨wi, hw⟩ := Option.isSome_iff_exists.mp h4
      exact ⟨⟨a, pi, ri, wi⟩, (loadConfig_ok env ⟨a, pi, ri, wi⟩).mpr ⟨ha, hp, hri, hw⟩⟩
  · intro c hc
    exact (loadConfig_ok env c).mp hc

/-- C9 witness: the fully-populated sample environment `wEnv`. -/
theorem loadConfig_validates_witness :
    wEnv "MASTER_ADDR" = some (Config.mk "master.local" 29500 0 2).masterAddr ∧
    (wEnv "MASTER_PORT").bind pyInt = some (Config.mk "master.local" 29500 0 2).masterPort ∧
    (wEnv "RANK").bind pyInt = some (Config.mk "master.local" 29500 0 2).rank ∧
    (wEnv "WORLD_SIZE").bind pyInt = some (Config.mk "master.local" 29500 0 2).worldSize :=
  (loadConfig_validates wEnv).2 ⟨"master.local", 29500, 0, 2⟩ rfl

/-- C10: `fetch_all` actually returns a 2-tuple — not the `list[bytes]` its
signature declares — whose first component is the list of exactly `N`
target urls in rank order and whose second component holds one outcome per
target in the same order (`post` mapped over the urls), all `N` requests
dispatched and joined by the pool shutdown before the function returns. -/
theorem fetch_all_returns_pair (N : Nat) (base : Store) (post : Post)
    (endpoint : String) (raw : List String)
    (hraw : (tcpstoreClient base).multiGet (fetchKeys N) = some raw) :
    fetch_all N base post endpoint =
      some (raw.map (fun a => handlerUrl a endpoint),
            (raw.map (fun a => handlerUrl a endpoint)).map post) ∧
    (raw.map (fun a => handlerUrl a endpoint)).length = N ∧
    ((raw.map (fun a => handlerUrl a endpoint)).map post).length = N := by
  have hlen : raw.length = N := by
    simpa [fetchKeys_length] using multiGet_length hraw
  exact ⟨fetch_all_eq_some hraw, by simp [hlen], by simp [hlen]⟩

/-- C10 witness: the world-size-1 fan-out over `wBase`. -/
theorem fetch_all_returns_pair_witness :
    fetch_all 1 wBase wPost "torch_profile" =
      some ((["http://h:1"] : List String).map (fun a => handlerUrl a "torch_profile"),
            ((["http://h:1"] : List String).map
              (fun a => handlerUrl a "torch_profile")).map wPost) ∧
    ((["http://h:1"] : List String).map (fun a => handlerUrl a "torch_profile")).length = 1 ∧
    (((["http://h:1"] : List String).map
        (fun a => handlerUrl a "torch_profile")).map wPost).length = 1 :=
  fetch_all_returns_pair 1 wBase wPost "torch_profile" ["http://h:1"] rfl

end TorchDebug
